import Mathlib

/-!
Verification of the Google Drive adapter module
(`src/dispatch/plugins/dispatch_google/drive/drive.py`).

The Python module is a thin layer of retry / pagination / request-shaping
glue over a remote HTTP client.  We shallowly embed its control flow:

* A remote operation is modelled as a function `Nat → CallOutcome α` giving
  the outcome (`success` or an `HttpError` with a numeric status and a raw
  content string) of the n-th invocation of that operation (1-indexed by
  cumulative invocation count).
* Python exceptions are modelled by the inductive `Exc`.  `raise HttpError`
  (raising the bare class, as `make_call` does on its propagate path) is a
  distinct value `Exc.bareHttpError` from `Exc.httpError st content` (an
  instance carrying data), mirroring the fact that the class-raise loses the
  caught instance.  `json.loads(e.content.decode())` is modelled as carrying
  the content string itself.
* The tenacity `@retry` decorator on `make_call`
  (`stop_after_attempt(5)`, `retry_if_exception_type(TryAgain)`,
  `wait_exponential(multiplier=1, min=2, max=5)`) is modelled by
  `tenacityGo`: at most `stopAfter` invocations of the body, retrying only
  on `Exc.tryAgain`, recording the backoff delay
  `max min (Nat.min (2 ^ n) max)` computed after the n-th attempt, and
  surfacing `Exc.retryError` (the RetryError of tenacity, reraise=False) when
  attempts are exhausted.
* Composite operations (`archive_team_drive`, `move_file`,
  `remove_permission`) are modelled over oracles giving the net result of
  each remote call (the `make_call` layer is proved separately), and they
  record the sequence of remote calls they issue as an event trace.
-/

/-- Outcome of one invocation of a remote operation: either a parsed result
or an `HttpError` carrying a numeric status and the raw error content. -/
inductive CallOutcome (α : Type) where
  | success (r : α)
  | httpError (status : Nat) (content : String)
deriving DecidableEq

/-- Python exception values observable from this module. -/
inductive Exc where
  /-- tenacity `TryAgain`. -/
  | tryAgain
  /-- `raise HttpError` — raising the bare exception class, which does not
  carry the caught instance (in CPython it cannot even be constructed
  without its `resp`/`content` arguments). -/
  | bareHttpError
  /-- an `HttpError` instance with its status and content. -/
  | httpError (status : Nat) (content : String)
  /-- `raise Exception(msg)`. -/
  | generic (msg : String)
  /-- `TypeError` from unpacking a non-tuple (`_, response = None`). -/
  | typeError
  /-- `UnboundLocalError`: a local variable used before assignment. -/
  | unboundLocal
  /-- tenacity `RetryError` after attempts are exhausted. -/
  | retryError
deriving DecidableEq, Repr

/-- Result of running a function body once: a return value or a raised
exception. -/
inductive BodyResult (α : Type) where
  | ok (r : α)
  | raised (e : Exc)
deriving DecidableEq

/-- Result of running a tenacity-wrapped call: final result, number of
invocations of the body performed, and the list of inter-attempt delays. -/
structure RunTrace (α : Type) where
  result : BodyResult α
  attempts : Nat
  delays : List Nat
deriving DecidableEq

/-- Statuses `make_call` treats as transient (drive.py line 89). -/
def transientStatuses : List Nat := [300, 429, 500, 502, 503, 504]

/-- One attempt of the body of `make_call` (drive.py lines 84-97): execute
the operation; on `HttpError` with a transient status raise `TryAgain`; on
other statuses either raise the bare `HttpError` class (propagate path,
line 94: `raise HttpError`) or raise a generic `Exception` carrying the
decoded error body. -/
def make_call_body (op : Nat → CallOutcome α) (propagate_errors : Bool)
    (attempt : Nat) : BodyResult α :=
  match op attempt with
  | CallOutcome.success r => BodyResult.ok r
  | CallOutcome.httpError st content =>
    if st ∈ transientStatuses then BodyResult.raised Exc.tryAgain
    else if propagate_errors then BodyResult.raised Exc.bareHttpError
    else BodyResult.raised (Exc.generic ("Request failed. Errors: " ++ content))

/-- tenacity `wait_exponential(multiplier=1, min=mn, max=mx)`: the delay
after the n-th attempt, `2 ^ n` clamped into `[mn, mx]`. -/
def wait_exponential (mn mx n : Nat) : Nat :=
  Nat.max mn (Nat.min (2 ^ n) mx)

/-- Whether a body result is the raised tenacity `TryAgain` exception,
i.e. matches `retry_if_exception_type(TryAgain)`. -/
def isTryAgain : BodyResult α → Bool
  | BodyResult.raised Exc.tryAgain => true
  | _ => false

/-- tenacity retry loop: `attempt` is the 1-based index of the next
invocation, the second argument the number of attempts still allowed.
Only `Exc.tryAgain` is retried (`retry_if_exception_type(TryAgain)`);
when attempts are exhausted a `RetryError` is surfaced (reraise=False). -/
def tenacityGo (waitF : Nat → Nat) (body : Nat → BodyResult α) :
    Nat → Nat → List Nat → RunTrace α
  | _, 0, delays => ⟨BodyResult.raised Exc.retryError, 0, delays⟩
  | attempt, remaining + 1, delays =>
    if isTryAgain (body attempt) then
      if remaining = 0 then ⟨BodyResult.raised Exc.retryError, attempt, delays⟩
      else tenacityGo waitF body (attempt + 1) remaining (delays ++ [waitF attempt])
    else ⟨body attempt, attempt, delays⟩

/-- Run a tenacity-wrapped body with a given attempt budget. -/
def tenacityRun (stopAfter : Nat) (waitF : Nat → Nat)
    (body : Nat → BodyResult α) : RunTrace α :=
  tenacityGo waitF body 1 stopAfter []

/-- `make_call` (drive.py lines 79-97): the body wrapped in
`@retry(stop=stop_after_attempt(5), retry=retry_if_exception_type(TryAgain),
wait=wait_exponential(multiplier=1, min=2, max=5))`. -/
def make_call (op : Nat → CallOutcome α) (propagate_errors : Bool) : RunTrace α :=
  tenacityRun 5 (wait_exponential 2 5) (make_call_body op propagate_errors)

/-- `make_call` against an operation stream starting at a given cumulative
invocation offset; used to thread invocation counts through composite
operations.  `make_call op p = make_callFrom op p 0`. -/
def make_callFrom (op : Nat → CallOutcome α) (propagate_errors : Bool)
    (offset : Nat) : RunTrace α :=
  tenacityRun 5 (wait_exponential 2 5)
    (fun attempt => make_call_body op propagate_errors (offset + attempt))

/-! ## Pagination (`paginated`, drive.py lines 43-75)

The wrapped listing function yields a sequence of pages; each page is the
list of records under the data key together with the truthiness of its
`nextPageToken` (`if not next_token: break` — absent or empty both stop).
The loop accumulates pages in order; after consuming a page it first checks
the token and then, with the token set for the next request, breaks when
`len(results) > limit` (drive.py line 68). -/

/-- The `while True` loop of `paginated`, one step per page consumed. -/
def paginatedGo (limit : Nat) : List (List α × Bool) → List α → List α
  | [], results => results
  | (items, hasToken) :: rest, results =>
    if hasToken then
      if limit < (results ++ items).length then results ++ items
      else paginatedGo limit rest (results ++ items)
    else results ++ items

/-- The `paginated` wrapper: start from an empty accumulator
(`limit` defaults to 250 at the call site, `kwargs.pop("limit", 250)`). -/
def paginated (limit : Nat) (pages : List (List α × Bool)) : List α :=
  paginatedGo limit pages []

/-- Largest page size in a page sequence. -/
def maxPageLen (pages : List (List α × Bool)) : Nat :=
  pages.foldr (fun p m => Nat.max p.1.length m) 0

/-- Mock source from the spec: 3 pages of 100 items, continuation tokens on
pages 1 and 2 only. -/
def page3mock : List (List Nat × Bool) :=
  [(List.range' 0 100, true), (List.range' 100 100, true), (List.range' 200 100, false)]

/-! ## Chunked upload (`upload_chunk` / `upload_file`, drive.py lines 100-130)

`next_chunk()` outcomes are modelled as a stream indexed by cumulative
invocation count (0-based).  `upload_chunk` is decorated with
`@retry(wait=wait_exponential(multiplier=1, max=10))`: no stop condition and
the default retry predicate, i.e. it retries on every exception, without
bound; the unbounded loop is modelled with fuel.  Delays are irrelevant to
the claims and are not recorded here. -/

/-- Outcome of one `request.next_chunk()` invocation. -/
inductive ChunkOutcome (ρ : Type) where
  /-- returned `(status, None)`: more chunks remain. -/
  | progress
  /-- returned `(status, response)`: upload complete. -/
  | done (resp : ρ)
  /-- raised `HttpError` with the given status. -/
  | httpError (status : Nat)
  /-- raised some non-`HttpError` exception. -/
  | otherError
deriving DecidableEq

/-- What one call of the decorated `upload_chunk` produces. -/
inductive ChunkReturn (ρ : Type) where
  /-- the `(status, response)` tuple from `next_chunk()`. -/
  | pair (resp : Option ρ)
  /-- `None`: the implicit return after the except branch swallowed a
  non-retryable `HttpError`. -/
  | noneReturn
  /-- fuel for the unbounded retry loop ran out. -/
  | exhausted
deriving DecidableEq

/-- Statuses `upload_chunk` re-raises for backoff (drive.py line 106). -/
def uploadChunkRetryStatuses : List Nat := [500, 502, 503, 504]

/-- `upload_chunk` (drive.py lines 100-108) together with its decorator:
on a 5xx status the body re-raises and the decorator retries; on any other
`HttpError` the except branch falls through and the function returns `None`;
a non-`HttpError` exception escapes the body and is also retried by the
decorator (default retry predicate).  Returns the produced value and the
next cumulative `next_chunk` invocation index. -/
def upload_chunk (op : Nat → ChunkOutcome ρ) : Nat → Nat → ChunkReturn ρ × Nat
  | 0, k => (ChunkReturn.exhausted, k)
  | fuel + 1, k =>
    match op k with
    | ChunkOutcome.done r => (ChunkReturn.pair (some r), k + 1)
    | ChunkOutcome.progress => (ChunkReturn.pair Option.none, k + 1)
    | ChunkOutcome.httpError st =>
      if st ∈ uploadChunkRetryStatuses then upload_chunk op fuel (k + 1)
      else (ChunkReturn.noneReturn, k + 1)
    | ChunkOutcome.otherError => upload_chunk op fuel (k + 1)

/-- Result of `upload_file`. -/
inductive UploadResult (ρ : Type) where
  | ok (r : ρ)
  | raised (e : Exc)
  | exhausted
deriving DecidableEq

/-- The `while not response` loop of `upload_file` (drive.py lines 120-121):
`_, response = upload_chunk(request)` — unpacking the `None` returned after
a swallowed error raises a `TypeError`. -/
def upload_fileLoop (op : Nat → ChunkOutcome ρ) (chunkFuel : Nat) :
    Nat → Nat → UploadResult ρ
  | 0, _ => UploadResult.exhausted
  | fuel + 1, k =>
    match upload_chunk op chunkFuel k with
    | (ChunkReturn.pair (some r), _) => UploadResult.ok r
    | (ChunkReturn.pair Option.none, k2) => upload_fileLoop op chunkFuel fuel k2
    | (ChunkReturn.noneReturn, _) => UploadResult.raised Exc.typeError
    | (ChunkReturn.exhausted, _) => UploadResult.exhausted

/-- `upload_file` (drive.py lines 112-130).  The function has no retry
decorator (the source carries a `TODO add retry` comment), so the
`raise TryAgain` in its 404 handler simply propagates to the caller. -/
def upload_file (op : Nat → ChunkOutcome ρ) (name path mimetype : String)
    (fuel chunkFuel : Nat) : UploadResult ρ :=
  match upload_fileLoop op chunkFuel fuel 0 with
  | UploadResult.ok r => UploadResult.ok r
  | UploadResult.exhausted => UploadResult.exhausted
  | UploadResult.raised e =>
    match e with
    | Exc.httpError st _ =>
      if st = 404 then UploadResult.raised Exc.tryAgain
      else UploadResult.raised (Exc.generic
        ("Failed to upload file. Name: " ++ name ++ " Path: " ++ path ++
          " MIMEType: " ++ mimetype))
    | e2 => UploadResult.raised e2

/-! ## `create_team_drive` (drive.py lines 179-193)

The function is decorated with
`@retry(stop=stop_after_attempt(5), retry=retry_if_exception_type(TryAgain))`.
Its body calls `make_call` on `drives().create` (propagate_errors left at
its default `False`), catches `HttpError` (raising `TryAgain` on 409,
silently falling through otherwise, which leaves `drive_data` unbound), and
then grants each member access via `add_permission`, i.e. one `make_call` on
`permissions().create` per member.  Remote invocations of the create
operation and of the permission operation are counted separately. -/

/-- The member-grant loop: one `make_call` per member, threading the
cumulative permission-call invocation count. -/
def addPermissions (permOp : Nat → CallOutcome Unit) :
    List String → Nat → BodyResult Unit × Nat
  | [], k => (BodyResult.ok (), k)
  | _member :: rest, k =>
    let mc := make_callFrom permOp false k
    match mc.result with
    | BodyResult.ok _ => addPermissions permOp rest (k + mc.attempts)
    | BodyResult.raised e => (BodyResult.raised e, k + mc.attempts)

/-- One attempt of the body of `create_team_drive`: returns the body result
and the updated (create, permission) invocation counts. -/
def create_team_drive_body (createOp : Nat → CallOutcome String)
    (permOp : Nat → CallOutcome Unit) (members : List String)
    (ck pk : Nat) : BodyResult String × Nat × Nat :=
  let mc := make_callFrom createOp false ck
  match mc.result with
  | BodyResult.ok driveId =>
    match addPermissions permOp members pk with
    | (BodyResult.ok _, pk2) => (BodyResult.ok driveId, ck + mc.attempts, pk2)
    | (BodyResult.raised e, pk2) => (BodyResult.raised e, ck + mc.attempts, pk2)
  | BodyResult.raised (Exc.httpError st _) =>
    -- the `except HttpError` handler of create_team_drive
    if st = 409 then (BodyResult.raised Exc.tryAgain, ck + mc.attempts, pk)
    else (BodyResult.raised Exc.unboundLocal, ck + mc.attempts, pk)
  | BodyResult.raised e => (BodyResult.raised e, ck + mc.attempts, pk)

/-- The outer tenacity loop of `create_team_drive` (no wait configured). -/
def ctdGo (createOp : Nat → CallOutcome String) (permOp : Nat → CallOutcome Unit)
    (members : List String) : Nat → Nat → Nat → BodyResult String × Nat × Nat
  | 0, ck, pk => (BodyResult.raised Exc.retryError, ck, pk)
  | remaining + 1, ck, pk =>
    let r := create_team_drive_body createOp permOp members ck pk
    if isTryAgain r.1 then
      if remaining = 0 then (BodyResult.raised Exc.retryError, r.2.1, r.2.2)
      else ctdGo createOp permOp members remaining r.2.1 r.2.2
    else r

/-- `create_team_drive` with its `stop_after_attempt(5)` decorator. -/
def create_team_drive (createOp : Nat → CallOutcome String)
    (permOp : Nat → CallOutcome Unit) (members : List String) :
    BodyResult String × Nat × Nat :=
  ctdGo createOp permOp members 5 0 0

/-! ## `archive_team_drive` (drive.py lines 260-276)

The composite operations are modelled over an oracle environment giving the
net outcome of each remote call as performed through `make_call` (whose own
retry behaviour is modelled above): `Except.ok` for a returned value,
`Except.error` for a raised exception.  Each issued remote call is recorded
as an event, in order, whether or not it succeeds. -/

/-- Remote calls issued during `archive_team_drive` (and the
`delete_team_drive` it ends with).  `move_file` issues two remote calls
(a parents read and an update); at this granularity it is recorded as a
single `moveFile` event and modelled precisely for claim C8 below. -/
inductive AEvent where
  | createFolder (parentId name : String)
  | listFiles (driveId : String)
  | permFile (fileId : String)
  | moveFile (fileId folderId : String)
  | listForDelete (driveId : String)
  | sleepDelay (seconds : Nat)
  | deleteFileCall (fileId : String)
  | deleteDrive (driveId : String)
deriving DecidableEq

/-- Oracle outcomes for the remote calls of `archive_team_drive`. -/
structure ArchiveEnv where
  /-- `create_file` for the destination folder: the created folder id. -/
  createFolderR : Except Exc String
  /-- `list_files` on the source drive with the non-folder query. -/
  listFilesR : Except Exc (List String)
  /-- `add_domain_permission` per file. -/
  permR : String → Except Exc Unit
  /-- `move_file` per file (its two remote calls collapsed). -/
  moveR : String → Except Exc Unit
  /-- `list_files` inside `delete_team_drive`. -/
  delListR : Except Exc (List String)
  /-- `delete_file` per listed file inside `delete_team_drive`. -/
  delFileR : String → Except Exc Unit
  /-- the final `teamdrives().delete` call. -/
  delDriveR : Except Exc Unit

/-- The per-file loop of `archive_team_drive` (drive.py lines 272-274):
grant a domain permission, then move the file into the destination folder;
a raised exception aborts the loop. -/
def processFiles (env : ArchiveEnv) (folderId : String) :
    List String → Except Exc Unit × List AEvent
  | [] => (Except.ok (), [])
  | f :: rest =>
    match env.permR f with
    | Except.error e => (Except.error e, [AEvent.permFile f])
    | Except.ok _ =>
      match env.moveR f with
      | Except.error e => (Except.error e, [AEvent.permFile f, AEvent.moveFile f folderId])
      | Except.ok _ =>
        match processFiles env folderId rest with
        | (r, tr) => (r, AEvent.permFile f :: AEvent.moveFile f folderId :: tr)

/-- The per-file loop of `delete_team_drive` (drive.py lines 254-255). -/
def deleteEach (env : ArchiveEnv) : List String → Except Exc Unit × List AEvent
  | [] => (Except.ok (), [])
  | f :: rest =>
    match env.delFileR f with
    | Except.error e => (Except.error e, [AEvent.deleteFileCall f])
    | Except.ok _ =>
      match deleteEach env rest with
      | (r, tr) => (r, AEvent.deleteFileCall f :: tr)

/-- `delete_team_drive` (drive.py lines 248-257): when `empty` is true,
list the drive, sleep 5 seconds, delete each listed file, then delete the
drive itself. -/
def delete_team_drive (env : ArchiveEnv) (driveId : String) (empty : Bool) :
    Except Exc Unit × List AEvent :=
  if empty then
    match env.delListR with
    | Except.error e => (Except.error e, [AEvent.listForDelete driveId])
    | Except.ok fs =>
      match deleteEach env fs with
      | (Except.error e, tr) =>
        (Except.error e, AEvent.listForDelete driveId :: AEvent.sleepDelay 5 :: tr)
      | (Except.ok _, tr) =>
        (env.delDriveR,
          AEvent.listForDelete driveId :: AEvent.sleepDelay 5 :: tr ++ [AEvent.deleteDrive driveId])
  else (env.delDriveR, [AEvent.deleteDrive driveId])

/-- `archive_team_drive` (drive.py lines 260-276): create the destination
folder, list the non-folder files of the source drive, process each file
(permission grant + move), then delete the source drive (with
`empty=True`, the default). -/
def archive_team_drive (env : ArchiveEnv) (src dest folder_name : String) :
    Except Exc Unit × List AEvent :=
  match env.createFolderR with
  | Except.error e => (Except.error e, [AEvent.createFolder dest folder_name])
  | Except.ok folderId =>
    match env.listFilesR with
    | Except.error e =>
      (Except.error e, [AEvent.createFolder dest folder_name, AEvent.listFiles src])
    | Except.ok fs =>
      match processFiles env folderId fs with
      | (Except.error e, ptr) =>
        (Except.error e, AEvent.createFolder dest folder_name :: AEvent.listFiles src :: ptr)
      | (Except.ok _, ptr) =>
        match delete_team_drive env src true with
        | (r2, dtr) =>
          (r2, AEvent.createFolder dest folder_name :: AEvent.listFiles src :: (ptr ++ dtr))

/-- Whether an event is a destination-folder creation. -/
def isCreateFolderEv : AEvent → Bool
  | AEvent.createFolder _ _ => true
  | _ => false

/-- Witness environment: a source drive with two files, everything
succeeding. -/
def archiveEnvW : ArchiveEnv :=
  { createFolderR := Except.ok "folder1"
    listFilesR := Except.ok ["f1", "f2"]
    permR := fun _ => Except.ok ()
    moveR := fun _ => Except.ok ()
    delListR := Except.ok []
    delFileR := fun _ => Except.ok ()
    delDriveR := Except.ok () }

/-! ## `move_file` (drive.py lines 384-398) -/

/-- The parameters of the `files().update` request built by `move_file`. -/
structure UpdateReq where
  fileId : String
  addParents : String
  removeParents : String
  supportsTeamDrives : Bool
  fields : String
deriving DecidableEq

/-- Remote calls issued by `move_file`. -/
inductive MEvent where
  | getParents (fileId : String) (fields : String)
  | update (req : UpdateReq)
deriving DecidableEq

/-- `move_file`: read the current parents of the file
(`fields="parents"`), join them with commas, and issue a single update
adding the destination drive and removing all previous parents.  `getR` is
the oracle outcome of the parents read; the function returns the update
request it issues (the remote response is passed through unchanged by the
source, so it carries no further logic). -/
def move_file (getR : Except Exc (List String)) (team_drive_id file_id : String) :
    Except Exc UpdateReq × List MEvent :=
  match getR with
  | Except.error e => (Except.error e, [MEvent.getParents file_id "parents"])
  | Except.ok parents =>
    let previous_parents := String.intercalate "," parents
    let req : UpdateReq :=
      { fileId := file_id
        addParents := team_drive_id
        removeParents := previous_parents
        supportsTeamDrives := true
        fields := "id, name, parents, webViewLink" }
    (Except.ok req, [MEvent.getParents file_id "parents", MEvent.update req])

/-! ## `remove_permission` (drive.py lines 363-381) -/

/-- A permission record as listed by the remote service
(`fields="permissions(id, emailAddress)"`). -/
structure Permission where
  permId : String
  emailAddress : String
deriving DecidableEq

/-- Remote calls issued by `remove_permission`. -/
inductive PEvent where
  | listPerms (fileId : String)
  | deletePerm (fileId permissionId : String)
deriving DecidableEq

/-- The scan loop of `remove_permission`: delete every permission whose
email address matches (the loop has no break; under the uniqueness
assumption at most one matches).  `delR` is the oracle outcome of each
delete call. -/
def removePermLoop (delR : String → Except Exc Unit) (email tid : String) :
    List Permission → Except Exc Unit × List PEvent
  | [] => (Except.ok (), [])
  | p :: rest =>
    if p.emailAddress == email then
      match delR p.permId with
      | Except.error e => (Except.error e, [PEvent.deletePerm tid p.permId])
      | Except.ok _ =>
        match removePermLoop delR email tid rest with
        | (r, tr) => (r, PEvent.deletePerm tid p.permId :: tr)
    else removePermLoop delR email tid rest

/-- `remove_permission`: list the permissions of the target, then scan. -/
def remove_permission (delR : String → Except Exc Unit)
    (listR : Except Exc (List Permission)) (email tid : String) :
    Except Exc Unit × List PEvent :=
  match listR with
  | Except.error e => (Except.error e, [PEvent.listPerms tid])
  | Except.ok perms =>
    match removePermLoop delR email tid perms with
    | (r, tr) => (r, PEvent.listPerms tid :: tr)

/-- Witness permission list. -/
def permsW : List Permission :=
  [{ permId := "p1", emailAddress := "a@x" }, { permId := "p2", emailAddress := "b@x" }]

/-! ## `delete_file` (drive.py lines 318-320) -/

/-- The parameters of the `files().delete` request built by `delete_file`. -/
structure DeleteReq where
  fileId : String
  supportsTeamDrives : Bool
deriving DecidableEq

/-- `delete_file(client, team_drive_id, file_id)`: the request is keyed only
by `fileId`; the `team_drive_id` parameter is accepted and ignored. -/
def delete_file (client : γ) (team_drive_id file_id : String) : DeleteReq :=
  { fileId := file_id, supportsTeamDrives := true }

/-- The result of `delete_file` as observed by the caller: `make_call` run
against the remote behaviour `resp` of the built request. -/
def delete_fileResult (resp : DeleteReq → Nat → CallOutcome α) (client : γ)
    (team_drive_id file_id : String) : RunTrace α :=
  make_call (resp (delete_file client team_drive_id file_id)) false

/-! ## Concrete inputs used in witnesses and counterexamples -/

/-- A remote operation that reports 503 on every attempt. -/
def opW503 : Nat → CallOutcome Nat := fun _ => CallOutcome.httpError 503 "e"

/-- A remote operation that reports 403 on every attempt. -/
def opW403 : Nat → CallOutcome String := fun _ => CallOutcome.httpError 403 "denied"

/-- A drive-create operation that reports a 409 name collision. -/
def createW409 : Nat → CallOutcome String := fun _ => CallOutcome.httpError 409 "conflict"

/-- A drive-create operation that succeeds immediately. -/
def createWOk : Nat → CallOutcome String := fun _ => CallOutcome.success "driveId"

/-- A permission-create operation that always succeeds. -/
def permWOk : Nat → CallOutcome Unit := fun _ => CallOutcome.success ()

/-- A permission-create operation whose first invocation succeeds and whose
second reports a non-retryable 400. -/
def permWSecondFails : Nat → CallOutcome Unit :=
  fun k => if k = 1 then CallOutcome.success () else CallOutcome.httpError 400 "bad"

/-- A chunk stream whose first `next_chunk` raises a 404 and which would
complete successfully on any later invocation (so a restarted transfer
would succeed). -/
def chunkW404 : Nat → ChunkOutcome Nat :=
  fun k => if k = 0 then ChunkOutcome.httpError 404 else ChunkOutcome.done 42

/-- A chunk stream whose every `next_chunk` raises a 403. -/
def chunkW403 : Nat → ChunkOutcome Nat := fun _ => ChunkOutcome.httpError 403

/-! ## Helper lemmas about the retry loops -/

/-- With a body that always raises `TryAgain`, the tenacity loop uses its
whole budget, waits after every non-final attempt, and surfaces
`RetryError`. -/
theorem tenacityGo_allTryAgain (waitF : Nat → Nat) (body : Nat → BodyResult α)
    (hb : ∀ n, body n = BodyResult.raised Exc.tryAgain) :
    ∀ (r attempt : Nat) (delays : List Nat),
      tenacityGo waitF body attempt (r + 1) delays =
        ⟨BodyResult.raised Exc.retryError, attempt + r,
          delays ++ (List.range r).map (fun i => waitF (attempt + i))⟩ := by
  intro r
  induction r with
  | zero =>
    intro attempt delays
    simp [tenacityGo, hb attempt, isTryAgain]
  | succ r ih =>
    intro attempt delays
    have hstep : tenacityGo waitF body attempt (r + 1 + 1) delays =
        tenacityGo waitF body (attempt + 1) (r + 1) (delays ++ [waitF attempt]) := by
      rw [tenacityGo]
      simp [hb attempt, isTryAgain]
    rw [hstep, ih (attempt + 1) (delays ++ [waitF attempt])]
    simp only [RunTrace.mk.injEq]
    refine ⟨trivial, by omega, ?_⟩
    simp only [List.range_succ_eq_map, List.map_cons, List.map_map,
      List.append_assoc, List.singleton_append, Nat.add_zero]
    refine congrArg (fun l => delays ++ waitF attempt :: l) ?_
    refine congrArg (fun f => List.map f (List.range r)) ?_
    funext i
    show waitF (attempt + 1 + i) = waitF (attempt + (i + 1))
    exact congrArg waitF (by omega)

/-! ## Claims about the call executor and chunked upload -/

/-- Claim C1: for every call through `make_call` whose underlying remote
operation reports a transient status (300, 429, 500, 502, 503, 504) on
every attempt, the executor performs exactly 5 invocations of the
operation, with each inter-attempt delay within [2,5] time units (the
delays are 2, 4, 5, 5), and then surfaces a final failure (tenacity
`RetryError`) to the caller — no silent success. -/
theorem claim_C1 {α : Type} (op : Nat → CallOutcome α) (p : Bool)
    (htrans : ∀ n, ∃ st c, op n = CallOutcome.httpError st c ∧ st ∈ transientStatuses) :
    (make_call op p).result = BodyResult.raised Exc.retryError ∧
    (make_call op p).attempts = 5 ∧
    (make_call op p).delays = [2, 4, 5, 5] ∧
    ∀ d ∈ (make_call op p).delays, 2 ≤ d ∧ d ≤ 5 := by
  have hb : ∀ n, make_call_body op p n = BodyResult.raised Exc.tryAgain := by
    intro n
    obtain ⟨st, c, hop, hst⟩ := htrans n
    simp [make_call_body, hop, hst]
  have hrun : make_call op p =
      ⟨BodyResult.raised Exc.retryError, 1 + 4,
        [] ++ (List.range 4).map (fun i => wait_exponential 2 5 (1 + i))⟩ :=
    tenacityGo_allTryAgain (wait_exponential 2 5) (make_call_body op p) hb 4 1 []
  rw [hrun]
  refine ⟨rfl, rfl, ?_, ?_⟩
  · show ([] ++ (List.range 4).map fun i => wait_exponential 2 5 (1 + i)) = [2, 4, 5, 5]
    decide
  · show ∀ d ∈ ([] ++ (List.range 4).map fun i => wait_exponential 2 5 (1 + i)),
      2 ≤ d ∧ d ≤ 5
    decide

/-- Witness for C1: the always-503 operation satisfies the hypothesis, and
the executor performs 5 attempts and surfaces the retry failure. -/
theorem claim_C1_witness :
    (make_call opW503 true).result = BodyResult.raised Exc.retryError ∧
    (make_call opW503 true).attempts = 5 ∧
    (make_call opW503 true).delays = [2, 4, 5, 5] := by
  have h := claim_C1 opW503 true (fun n => ⟨503, "e", rfl, by decide⟩)
  exact ⟨h.1, h.2.1, h.2.2.1⟩

/-- Claim C2 (code evidence): on a non-retryable 403 the executor does not
retry and fails on the first attempt, and without raw-error propagation it
raises a generic failure carrying the decoded error body — but on the
propagate path the source executes `raise HttpError`, raising the bare
exception class, which is not the original failure: the claim that the
original failure is re-raised unchanged does not hold. -/
theorem claim_C2_bug :
    (make_call opW403 true).result = BodyResult.raised Exc.bareHttpError ∧
    (make_call opW403 true).attempts = 1 ∧
    Exc.bareHttpError ≠ Exc.httpError 403 "denied" ∧
    (make_call opW403 false).result
        = BodyResult.raised (Exc.generic "Request failed. Errors: denied") ∧
    (make_call opW403 false).attempts = 1 := by
  decide

/-- Claim C4 (code evidence): a 409 name collision never reaches the
`except HttpError` handler of `create_team_drive`, because `make_call`
converts it into a generic `Exception`; the creation is therefore not
retried at all — one remote create invocation, no permission grants, and a
generic failure surfaces.  The second conjunct shows the member-grant
phase: after a successful creation the grants are issued in sequence and a
failure partway through stops the loop with the drive created and a
partial member list (first grant issued and succeeded, second issued and
failed, third never issued). -/
theorem claim_C4_bug :
    create_team_drive createW409 permWOk ["member1"]
        = (BodyResult.raised (Exc.generic "Request failed. Errors: conflict"), 1, 0) ∧
    create_team_drive createWOk permWSecondFails ["m1", "m2", "m3"]
        = (BodyResult.raised (Exc.generic "Request failed. Errors: bad"), 1, 2) := by
  decide

/-- Claim C5 (code evidence): a 404 on the first chunk does not restart the
transfer.  `upload_chunk` swallows the 404 and returns `None`, so the
unpacking in `upload_file` raises a `TypeError`: the result is neither a
successful restarted upload (the stream succeeds from invocation 1 on, so
a true restart would return `ok 42`) nor even the `TryAgain` the dead 404
handler would raise. -/
theorem claim_C5_bug :
    upload_file chunkW404 "report" "path1" "text-plain" 10 10
        = UploadResult.raised Exc.typeError ∧
    UploadResult.raised Exc.typeError ≠ (UploadResult.ok 42 : UploadResult Nat) ∧
    UploadResult.raised Exc.typeError ≠ (UploadResult.raised Exc.tryAgain : UploadResult Nat) := by
  decide

/-- Claim C6 (code evidence): a chunk-send failure with a status outside
{500, 502, 503, 504} is silently discarded by `upload_chunk`: after a
single `next_chunk` invocation the function returns `None` (not the
`(status, response)` tuple of a successful call, and not a raised
exception), whatever the retry budget. -/
theorem claim_C6_bug :
    (∀ fuel : Nat, upload_chunk chunkW403 (fuel + 1) 0 = (ChunkReturn.noneReturn, 1)) ∧
    (ChunkReturn.noneReturn : ChunkReturn Nat) ≠ ChunkReturn.pair Option.none := by
  refine ⟨fun fuel => rfl, by decide⟩

/-! ## Pagination lemmas -/

/-- The pagination loop returns the accumulator followed by the in-order
concatenation of a prefix of the page sequence, and it stops before the end
of the sequence only because the last consumed page had a falsy
continuation token or because the accumulated count exceeded the limit. -/
theorem paginatedGo_concat {α : Type} (limit : Nat) :
    ∀ (pages : List (List α × Bool)) (acc : List α),
      ∃ k, k ≤ pages.length ∧
        paginatedGo limit pages acc = acc ++ ((pages.take k).map Prod.fst).flatten ∧
        (k < pages.length → 1 ≤ k ∧
          ((pages.get? (k - 1)).map Prod.snd = some false ∨
            limit < (paginatedGo limit pages acc).length)) := by
  intro pages
  induction pages with
  | nil =>
    intro acc
    refine ⟨0, Nat.le_refl 0, by simp [paginatedGo], fun h => absurd h (by simp)⟩
  | cons page rest ih =>
    intro acc
    obtain ⟨items, hasToken⟩ := page
    cases hasToken with
    | false =>
      refine ⟨1, Nat.succ_le_succ (Nat.zero_le _), by simp [paginatedGo],
        fun _ => ⟨Nat.le_refl 1, Or.inl (by simp)⟩⟩
    | true =>
      by_cases hl : limit < (acc ++ items).length
      · have hres : paginatedGo limit ((items, true) :: rest) acc = acc ++ items := by
          show (if limit < (acc ++ items).length then acc ++ items
            else paginatedGo limit rest (acc ++ items)) = acc ++ items
          exact if_pos hl
        refine ⟨1, Nat.succ_le_succ (Nat.zero_le _), by simp [hres],
          fun _ => ⟨Nat.le_refl 1, Or.inr ?_⟩⟩
        rw [hres]
        exact hl
      · have hstep : paginatedGo limit ((items, true) :: rest) acc
            = paginatedGo limit rest (acc ++ items) := by
          show (if limit < (acc ++ items).length then acc ++ items
            else paginatedGo limit rest (acc ++ items)) = paginatedGo limit rest (acc ++ items)
          exact if_neg hl
        obtain ⟨k, hk, heq, hreason⟩ := ih (acc ++ items)
        refine ⟨k + 1, Nat.succ_le_succ hk, ?_, ?_⟩
        · rw [hstep, heq]
          simp [List.take_succ_cons, List.append_assoc]
        · intro hlt
          have hklt : k < rest.length := Nat.lt_of_succ_lt_succ hlt
          obtain ⟨h1k, hr⟩ := hreason hklt
          obtain ⟨k2, rfl⟩ : ∃ k2, k = k2 + 1 :=
            ⟨k - 1, (Nat.succ_pred_eq_of_pos h1k).symm⟩
          refine ⟨by omega, ?_⟩
          rw [hstep]
          have hget : ((items, true) :: rest).get? (k2 + 1 + 1 - 1)
              = rest.get? (k2 + 1 - 1) := rfl
          rw [hget]
          exact hr

/-- Invariant form of the overshoot bound: if the accumulator respects the
limit, the loop result exceeds the limit by at most one page. -/
theorem paginatedGo_overshoot {α : Type} (limit : Nat) :
    ∀ (pages : List (List α × Bool)) (acc : List α), acc.length ≤ limit →
      (paginatedGo limit pages acc).length ≤ limit + maxPageLen pages := by
  intro pages
  induction pages with
  | nil =>
    intro acc h
    simpa [paginatedGo, maxPageLen] using h
  | cons page rest ih =>
    intro acc h
    obtain ⟨items, hasToken⟩ := page
    have hm1 : items.length ≤ Nat.max items.length (maxPageLen rest) := Nat.le_max_left _ _
    have hm2 : maxPageLen rest ≤ Nat.max items.length (maxPageLen rest) := Nat.le_max_right _ _
    have hmax : maxPageLen ((items, hasToken) :: rest)
        = Nat.max items.length (maxPageLen rest) := rfl
    cases hasToken with
    | false =>
      have hres : paginatedGo limit ((items, false) :: rest) acc = acc ++ items := rfl
      rw [hres, hmax, List.length_append]
      omega
    | true =>
      by_cases hl : limit < (acc ++ items).length
      · have hres : paginatedGo limit ((items, true) :: rest) acc = acc ++ items := by
          show (if limit < (acc ++ items).length then acc ++ items
            else paginatedGo limit rest (acc ++ items)) = acc ++ items
          exact if_pos hl
        rw [hres, hmax, List.length_append]
        omega
      · have hstep : paginatedGo limit ((items, true) :: rest) acc
            = paginatedGo limit rest (acc ++ items) := by
          show (if limit < (acc ++ items).length then acc ++ items
            else paginatedGo limit rest (acc ++ items)) = paginatedGo limit rest (acc ++ items)
          exact if_neg hl
        rw [hstep, hmax]
        have hle : (acc ++ items).length ≤ limit := Nat.le_of_not_lt hl
        have := ih (acc ++ items) hle
        omega

set_option maxRecDepth 10000 in
/-- Claim C3: the pagination wrapper returns the in-order concatenation of
successive pages; iteration stops when a page carries no continuation
token, or once the accumulated item count exceeds the limit even if a
token remains, so the result overshoots the limit by at most one page; in
particular, for 3 pages of 100 items with continuation tokens on pages 1
and 2 only and limit 250, the wrapper returns exactly the 300 items. -/
theorem claim_C3 (pages : List (List Nat × Bool)) (limit : Nat) :
    (∃ k, k ≤ pages.length ∧
      paginated limit pages = ((pages.take k).map Prod.fst).flatten ∧
      (k < pages.length → 1 ≤ k ∧
        ((pages.get? (k - 1)).map Prod.snd = some false ∨
          limit < (paginated limit pages).length))) ∧
    (paginated limit pages).length ≤ limit + maxPageLen pages ∧
    paginated 250 page3mock = List.range 300 := by
  refine ⟨?_, ?_, ?_⟩
  · obtain ⟨k, hk, heq, hr⟩ := paginatedGo_concat limit pages []
    exact ⟨k, hk, by simpa [paginated] using heq, by simpa [paginated] using hr⟩
  · simpa [paginated] using paginatedGo_overshoot limit pages [] (by simp)
  · show paginatedGo 250 page3mock [] = List.range 300
    rfl

/-- Witness for C3: the concrete 3-page source returns exactly 300 items. -/
theorem claim_C3_witness : paginated 250 page3mock = List.range 300 :=
  (claim_C3 page3mock 250).2.2

/-! ## Archive lemmas -/

/-- Every event recorded by the per-file loop is a permission grant or a
move into the destination folder. -/
theorem processFiles_events (env : ArchiveEnv) (folderId : String) :
    ∀ fs : List String, ∀ ev ∈ (processFiles env folderId fs).2,
      (∃ f, ev = AEvent.permFile f) ∨ (∃ f, ev = AEvent.moveFile f folderId) := by
  intro fs
  induction fs with
  | nil => intro ev hev; simp [processFiles] at hev
  | cons f rest ih =>
    intro ev hev
    cases hp : env.permR f with
    | error e =>
      simp [processFiles, hp] at hev
      exact Or.inl ⟨f, hev⟩
    | ok u =>
      cases hm : env.moveR f with
      | error e =>
        simp [processFiles, hp, hm] at hev
        rcases hev with h | h
        · exact Or.inl ⟨f, h⟩
        · exact Or.inr ⟨f, h⟩
      | ok v =>
        rcases hrec : processFiles env folderId rest with ⟨r2, tr2⟩
        simp [processFiles, hp, hm, hrec] at hev
        rcases hev with h | h | h
        · exact Or.inl ⟨f, h⟩
        · exact Or.inr ⟨f, h⟩
        · exact ih ev (by rw [hrec]; exact h)

/-- When every per-file call succeeds, the loop succeeds and its trace is
the in-order grant/move pair for each file. -/
theorem processFiles_okAll (env : ArchiveEnv) (folderId : String) :
    ∀ fs : List String,
      (∀ f ∈ fs, env.permR f = Except.ok () ∧ env.moveR f = Except.ok ()) →
      processFiles env folderId fs =
        (Except.ok (),
          (fs.map fun f => [AEvent.permFile f, AEvent.moveFile f folderId]).flatten) := by
  intro fs
  induction fs with
  | nil => intro _; rfl
  | cons f rest ih =>
    intro hall
    obtain ⟨hp, hm⟩ := hall f (List.mem_cons_self f rest)
    have hrest := ih fun g hg => hall g (List.mem_cons_of_mem f hg)
    simp [processFiles, hp, hm, hrest]

/-- Conversely, the loop returns `ok` only when every per-file call
succeeded. -/
theorem processFiles_ok_inv (env : ArchiveEnv) (folderId : String) :
    ∀ (fs : List String) (tr : List AEvent),
      processFiles env folderId fs = (Except.ok (), tr) →
      ∀ f ∈ fs, env.permR f = Except.ok () ∧ env.moveR f = Except.ok () := by
  intro fs
  induction fs with
  | nil => intro tr _ f hf; simp at hf
  | cons f rest ih =>
    intro tr heq g hg
    cases hp : env.permR f with
    | error e => simp [processFiles, hp] at heq
    | ok u =>
      cases hm : env.moveR f with
      | error e => simp [processFiles, hp, hm] at heq
      | ok v =>
        rcases hrec : processFiles env folderId rest with ⟨r2, tr2⟩
        simp [processFiles, hp, hm, hrec] at heq
        rcases List.mem_cons.mp hg with rfl | hgr
        · exact ⟨hp, hm⟩
        · have hrest : processFiles env folderId rest = (Except.ok (), tr2) := by
            rw [hrec, heq.1]
          exact ih tr2 hrest g hgr

/-- When a prefix of files processes cleanly and then the move of one file
fails, the loop fails with that error and its trace is the prefix traces
followed by the grant and attempted move of the failing file. -/
theorem processFiles_error (env : ArchiveEnv) (folderId : String) :
    ∀ (fs1 : List String) (g : String) (fs2 : List String) (e : Exc),
      (∀ f ∈ fs1, env.permR f = Except.ok () ∧ env.moveR f = Except.ok ()) →
      env.permR g = Except.ok () → env.moveR g = Except.error e →
      processFiles env folderId (fs1 ++ g :: fs2) =
        (Except.error e,
          ((fs1.map fun f => [AEvent.permFile f, AEvent.moveFile f folderId]).flatten) ++
            [AEvent.permFile g, AEvent.moveFile g folderId]) := by
  intro fs1
  induction fs1 with
  | nil =>
    intro g fs2 e _ hp hm
    simp [processFiles, hp, hm]
  | cons f rest ih =>
    intro g fs2 e hall hp hm
    obtain ⟨hfp, hfm⟩ := hall f (List.mem_cons_self f rest)
    have hrec := ih g fs2 e (fun x hx => hall x (List.mem_cons_of_mem f hx)) hp hm
    simp [processFiles, hfp, hfm, hrec, List.append_assoc]

/-- Every event of the deletion loop is a file-delete call. -/
theorem deleteEach_events (env : ArchiveEnv) :
    ∀ ds : List String, ∀ ev ∈ (deleteEach env ds).2, ∃ f, ev = AEvent.deleteFileCall f := by
  intro ds
  induction ds with
  | nil => intro ev hev; simp [deleteEach] at hev
  | cons f rest ih =>
    intro ev hev
    cases hd : env.delFileR f with
    | error e =>
      simp [deleteEach, hd] at hev
      exact ⟨f, hev⟩
    | ok u =>
      rcases hrec : deleteEach env rest with ⟨r2, tr2⟩
      simp [deleteEach, hd, hrec] at hev
      rcases hev with rfl | h
      · exact ⟨f, rfl⟩
      · exact ih ev (by rw [hrec]; exact h)

/-- Every event of `delete_team_drive` (with emptying) is a listing, the
settling sleep, a file delete, or the final drive delete. -/
theorem delete_team_drive_events (env : ArchiveEnv) (d : String) :
    ∀ ev ∈ (delete_team_drive env d true).2,
      (∃ x, ev = AEvent.listForDelete x) ∨ (∃ n, ev = AEvent.sleepDelay n) ∨
      (∃ x, ev = AEvent.deleteFileCall x) ∨ (∃ x, ev = AEvent.deleteDrive x) := by
  intro ev hev
  cases hdl : env.delListR with
  | error e =>
    simp [delete_team_drive, hdl] at hev
    exact Or.inl ⟨d, hev⟩
  | ok ds =>
    rcases hde : deleteEach env ds with ⟨der, detr⟩
    have hdev := deleteEach_events env ds
    rw [hde] at hdev
    cases der with
    | error e =>
      simp [delete_team_drive, hdl, hde] at hev
      rcases hev with rfl | rfl | h
      · exact Or.inl ⟨d, rfl⟩
      · exact Or.inr (Or.inl ⟨5, rfl⟩)
      · obtain ⟨f, rfl⟩ := hdev _ h
        exact Or.inr (Or.inr (Or.inl ⟨f, rfl⟩))
    | ok u =>
      simp [delete_team_drive, hdl, hde] at hev
      rcases hev with rfl | rfl | h | rfl
      · exact Or.inl ⟨d, rfl⟩
      · exact Or.inr (Or.inl ⟨5, rfl⟩)
      · obtain ⟨f, rfl⟩ := hdev _ h
        exact Or.inr (Or.inr (Or.inl ⟨f, rfl⟩))
      · exact Or.inr (Or.inr (Or.inr ⟨d, rfl⟩))

/-- If the drive-delete call appears in the trace of `delete_team_drive`,
it is the final event: everything else precedes it. -/
theorem delete_team_drive_deleteDrive (env : ArchiveEnv) (d : String) :
    AEvent.deleteDrive d ∈ (delete_team_drive env d true).2 →
    ∃ dpre, (delete_team_drive env d true).2 = dpre ++ [AEvent.deleteDrive d] := by
  intro hmem
  cases hdl : env.delListR with
  | error e => simp [delete_team_drive, hdl] at hmem
  | ok ds =>
    rcases hde : deleteEach env ds with ⟨der, detr⟩
    have hdev := deleteEach_events env ds
    rw [hde] at hdev
    cases der with
    | error e =>
      simp [delete_team_drive, hdl, hde] at hmem
      obtain ⟨f, hfe⟩ := hdev _ hmem
      simp at hfe
    | ok u =>
      refine ⟨AEvent.listForDelete d :: AEvent.sleepDelay 5 :: detr, ?_⟩
      simp [delete_team_drive, hdl, hde]

/-- Claim C7: in every run of `archive_team_drive` the destination folder
creation is the first issued call and occurs exactly once (hence before any
file move); when the drive-delete call appears in the trace, every listed
move of every listed file precedes it; when every per-file call succeeds
the trace is the folder creation, the listing, then the grant and move of
each file in sequence,
followed by the deletion phase; and a move failure partway through leaves
the earlier files moved, surfaces that error, and never issues the
drive-delete call. -/
theorem claim_C7 (env : ArchiveEnv) (src dest folder_name folderId : String)
    (fs : List String)
    (hc : env.createFolderR = Except.ok folderId)
    (hf : env.listFilesR = Except.ok fs) :
    (archive_team_drive env src dest folder_name).2.head?
        = some (AEvent.createFolder dest folder_name) ∧
    (archive_team_drive env src dest folder_name).2.countP isCreateFolderEv = 1 ∧
    (AEvent.deleteDrive src ∈ (archive_team_drive env src dest folder_name).2 →
      ∃ pre post, (archive_team_drive env src dest folder_name).2
          = pre ++ AEvent.deleteDrive src :: post ∧
        ∀ f ∈ fs, AEvent.moveFile f folderId ∈ pre) ∧
    ((∀ f ∈ fs, env.permR f = Except.ok () ∧ env.moveR f = Except.ok ()) →
      ∃ dtr, (archive_team_drive env src dest folder_name).2
          = AEvent.createFolder dest folder_name :: AEvent.listFiles src ::
            (((fs.map fun f => [AEvent.permFile f, AEvent.moveFile f folderId]).flatten)
              ++ dtr)) ∧
    (∀ (fs1 : List String) (g : String) (fs2 : List String) (e : Exc),
      fs = fs1 ++ g :: fs2 →
      (∀ f ∈ fs1, env.permR f = Except.ok () ∧ env.moveR f = Except.ok ()) →
      env.permR g = Except.ok () → env.moveR g = Except.error e →
      (archive_team_drive env src dest folder_name).1 = Except.error e ∧
      (∀ f ∈ fs1,
        AEvent.moveFile f folderId ∈ (archive_team_drive env src dest folder_name).2) ∧
      AEvent.deleteDrive src ∉ (archive_team_drive env src dest folder_name).2) := by
  have hpev := processFiles_events env folderId fs
  rcases hpf : processFiles env folderId fs with ⟨pr, ptr⟩
  rw [hpf] at hpev
  cases pr with
  | error e0 =>
    have harch : archive_team_drive env src dest folder_name
        = (Except.error e0,
            AEvent.createFolder dest folder_name :: AEvent.listFiles src :: ptr) := by
      simp [archive_team_drive, hc, hf, hpf]
    have h0 : ptr.countP isCreateFolderEv = 0 := by
      rw [List.countP_eq_zero]
      intro ev hev
      rcases hpev ev hev with ⟨f, rfl⟩ | ⟨f, rfl⟩ <;> simp [isCreateFolderEv]
    refine ⟨?_, ?_, ?_, ?_, ?_⟩
    · rw [harch]
      rfl
    · rw [harch]
      simp [List.countP_cons, isCreateFolderEv, h0]
    · intro hmem
      rw [harch] at hmem
      simp at hmem
      rcases hpev _ hmem with ⟨f, hfe⟩ | ⟨f, hfe⟩ <;> simp at hfe
    · intro hall
      have hok := processFiles_okAll env folderId fs hall
      rw [hpf] at hok
      simp at hok
    · intro fs1 g fs2 e hsplit hall1 hpg hmg
      have herr := processFiles_error env folderId fs1 g fs2 e hall1 hpg hmg
      rw [← hsplit, hpf] at herr
      simp only [Prod.mk.injEq, Except.error.injEq] at herr
      obtain ⟨he, htr⟩ := herr
      subst he
      refine ⟨?_, ?_, ?_⟩
      · rw [harch]
      · intro f hf1
        rw [harch]
        simp only [List.mem_cons]
        right; right
        rw [htr]
        refine List.mem_append.mpr (Or.inl ?_)
        refine List.mem_flatten.mpr ⟨_, List.mem_map_of_mem _ hf1, ?_⟩
        simp
      · rw [harch]
        intro hmem
        simp at hmem
        rcases hpev _ hmem with ⟨f2, hfe⟩ | ⟨f2, hfe⟩ <;> simp at hfe
  | ok u =>
    have hallok := processFiles_ok_inv env folderId fs ptr hpf
    have hptr2 : ptr
        = (fs.map fun f => [AEvent.permFile f, AEvent.moveFile f folderId]).flatten := by
      have hok := processFiles_okAll env folderId fs hallok
      rw [hpf] at hok
      simpa using hok
    rcases hdt : delete_team_drive env src true with ⟨dr, dtr⟩
    have harch : archive_team_drive env src dest folder_name
        = (dr, AEvent.createFolder dest folder_name :: AEvent.listFiles src ::
            (ptr ++ dtr)) := by
      simp [archive_team_drive, hc, hf, hpf, hdt]
    have h0 : ptr.countP isCreateFolderEv = 0 := by
      rw [List.countP_eq_zero]
      intro ev hev
      rcases hpev ev hev with ⟨f, rfl⟩ | ⟨f, rfl⟩ <;> simp [isCreateFolderEv]
    have h1 : dtr.countP isCreateFolderEv = 0 := by
      rw [List.countP_eq_zero]
      intro ev hev
      have := delete_team_drive_events env src ev (by rw [hdt]; exact hev)
      rcases this with ⟨x, rfl⟩ | ⟨n, rfl⟩ | ⟨x, rfl⟩ | ⟨x, rfl⟩ <;> simp [isCreateFolderEv]
    refine ⟨?_, ?_, ?_, ?_, ?_⟩
    · rw [harch]
      rfl
    · rw [harch]
      simp [List.countP_cons, List.countP_append, isCreateFolderEv, h0, h1]
    · intro hmem
      rw [harch] at hmem
      simp at hmem
      have hmemdtr : AEvent.deleteDrive src ∈ dtr := by
        rcases hmem with h | h
        · exfalso
          rcases hpev _ h with ⟨f, hfe⟩ | ⟨f, hfe⟩ <;> simp at hfe
        · exact h
      obtain ⟨dpre, hdpre⟩ :=
        delete_team_drive_deleteDrive env src (by rw [hdt]; exact hmemdtr)
      rw [hdt] at hdpre
      have hdtr : dtr = dpre ++ [AEvent.deleteDrive src] := hdpre
      refine ⟨AEvent.createFolder dest folder_name :: AEvent.listFiles src ::
        (ptr ++ dpre), [], ?_, ?_⟩
      · rw [harch]
        simp [hdtr, List.append_assoc]
      · intro f hf1
        simp only [List.mem_cons]
        right; right
        refine List.mem_append.mpr (Or.inl ?_)
        rw [hptr2]
        refine List.mem_flatten.mpr ⟨_, List.mem_map_of_mem _ hf1, ?_⟩
        simp
    · intro _hall
      refine ⟨dtr, ?_⟩
      rw [harch, hptr2]
    · intro fs1 g fs2 e hsplit hall1 hpg hmg
      have herr := processFiles_error env folderId fs1 g fs2 e hall1 hpg hmg
      rw [← hsplit, hpf] at herr
      simp at herr

/-- Witness for C7: with a two-file source drive and all calls succeeding,
the destination folder creation is the first issued call. -/
theorem claim_C7_witness :
    (archive_team_drive archiveEnvW "src" "dest" "arch").2.head?
        = some (AEvent.createFolder "dest" "arch") :=
  (claim_C7 archiveEnvW "src" "dest" "arch" "folder1" ["f1", "f2"] rfl rfl).1

/-! ## Move, permission-removal, and delete-file claims -/

/-- Claim C8: `move_file` reads the current parent set first and then
issues a single update whose `addParents` is the destination drive and
whose `removeParents` is the comma-joined list of all previous parents; in
particular parents `[A, B]` with destination `C` yield
`removeParents = "A,B"`.  When the parents read fails, no update is
issued. -/
theorem claim_C8 (parents : List String) (dest fid : String) :
    (∃ req : UpdateReq,
      move_file (Except.ok parents) dest fid
          = (Except.ok req, [MEvent.getParents fid "parents", MEvent.update req]) ∧
      req.addParents = dest ∧
      req.removeParents = String.intercalate "," parents ∧
      req.fileId = fid) ∧
    (∀ e : Exc, (move_file (Except.error e) dest fid).2
        = [MEvent.getParents fid "parents"]) ∧
    (move_file (Except.ok ["A", "B"]) "C" fid).2
        = [MEvent.getParents fid "parents",
            MEvent.update
              { fileId := fid, addParents := "C", removeParents := "A,B",
                supportsTeamDrives := true, fields := "id, name, parents, webViewLink" }] := by
  refine ⟨⟨_, rfl, rfl, rfl, rfl⟩, fun e => rfl, rfl⟩

/-- With all delete calls succeeding, the scan loop deletes exactly the
matching permissions, in list order. -/
theorem removePermLoop_allOk (delR : String → Except Exc Unit) (email tid : String)
    (hdel : ∀ s, delR s = Except.ok ()) :
    ∀ perms : List Permission,
      removePermLoop delR email tid perms =
        (Except.ok (),
          ((perms.filter fun p => p.emailAddress == email).map
            fun p => PEvent.deletePerm tid p.permId)) := by
  intro perms
  induction perms with
  | nil => rfl
  | cons p rest ih =>
    by_cases hm : p.emailAddress == email
    · simp [removePermLoop, hm, hdel p.permId, ih, List.filter_cons]
    · simp [removePermLoop, hm, ih, List.filter_cons]

/-- Claim C9: `remove_permission` lists the permissions of the target and
linearly scans them; the first matching permission is deleted first (and,
when at most one matches, it is the only deletion), and when no entry
matches no delete call is issued. -/
theorem claim_C9 (delR : String → Except Exc Unit) (perms : List Permission)
    (email tid : String) (hdel : ∀ s, delR s = Except.ok ()) :
    (remove_permission delR (Except.ok perms) email tid).2
        = PEvent.listPerms tid ::
          ((perms.filter fun p => p.emailAddress == email).map
            fun p => PEvent.deletePerm tid p.permId) ∧
    ((perms.filter fun p => p.emailAddress == email) = [] →
      (remove_permission delR (Except.ok perms) email tid).2 = [PEvent.listPerms tid]) ∧
    (∀ (p : Permission) (rest : List Permission),
      (perms.filter fun p => p.emailAddress == email) = p :: rest →
      (remove_permission delR (Except.ok perms) email tid).2
        = PEvent.listPerms tid :: PEvent.deletePerm tid p.permId ::
            (rest.map fun q => PEvent.deletePerm tid q.permId)) := by
  have hloop := removePermLoop_allOk delR email tid hdel perms
  refine ⟨?_, ?_, ?_⟩
  · simp [remove_permission, hloop]
  · intro hnone
    simp [remove_permission, hloop, hnone]
  · intro p rest hfirst
    simp [remove_permission, hloop, hfirst]

/-- Witness for C9: a two-entry permission list with a single match on the
second entry produces the listing followed by exactly that deletion. -/
theorem claim_C9_witness :
    (remove_permission (fun _ => Except.ok ()) (Except.ok permsW) "b@x" "t").2
        = PEvent.listPerms "t" ::
          ((permsW.filter fun p => p.emailAddress == "b@x").map
            fun p => PEvent.deletePerm "t" p.permId) :=
  (claim_C9 (fun _ => Except.ok ()) permsW "b@x" "t" (fun _ => rfl)).1

/-- Claim C10: `delete_file` builds the same remote delete request — keyed
only by `fileId` — for any two values of `team_drive_id`, and against any
remote behaviour of that request the observed result is identical: the
`team_drive_id` argument has no influence. -/
theorem claim_C10 {γ : Type} (client : γ) (t1 t2 fid : String) :
    delete_file client t1 fid = delete_file client t2 fid ∧
    (delete_file client t1 fid).fileId = fid ∧
    ∀ resp : DeleteReq → Nat → CallOutcome Nat,
      delete_fileResult resp client t1 fid = delete_fileResult resp client t2 fid := by
  exact ⟨rfl, rfl, fun resp => rfl⟩
